import Mathlib

/-!
Verification of the hyperplane swap-curve mathematics layer.

The Rust sources are shallowly embedded: machine integers (u64, u128, U256)
become `Nat` with explicit bound checks in the checked operations, fallible
code returns `Except SwapErr`, and the bounded Newton iterations of the
stable-swap solver become fuel-indexed structural recursion (fuel 256, as in
the source constant ITERATIONS).
-/

namespace Hyperplane

/-- Error kinds of the curve layer, mirroring the program's SwapError variants
that the embedded code paths can raise. -/
inductive SwapErr where
  | arithmeticOverflow
  | divideByZero
  | conversionFailure
  | calculationFailure
  | invalidCurve
  | feeCalculationFailure
  | exceededSlippage
  | zeroTradingTokens
  deriving DecidableEq, Repr

/-- Result type of fallible curve computations. -/
abbrev Res (α : Type) : Type := Except SwapErr α

instance {α : Type} [DecidableEq α] : DecidableEq (Res α) := fun a b =>
  match a, b with
  | .error e1, .error e2 =>
    if h : e1 = e2 then .isTrue (by rw [h]) else .isFalse (by simp [h])
  | .error _, .ok _ => .isFalse (by simp)
  | .ok _, .error _ => .isFalse (by simp)
  | .ok a1, .ok a2 =>
    if h : a1 = a2 then .isTrue (by rw [h]) else .isFalse (by simp [h])

/-- Size of the u64 integer type. -/
def U64_SIZE : Nat := 2 ^ 64

/-- Size of the u128 integer type. -/
def U128_SIZE : Nat := 2 ^ 128

/-- Size of the U256 integer type. -/
def U256_SIZE : Nat := 2 ^ 256

/-- Checked addition at integer width w (try_add). -/
def tryAdd (w a b : Nat) : Res Nat :=
  if a + b < w then .ok (a + b) else .error .arithmeticOverflow

/-- Checked multiplication at integer width w (try_mul). -/
def tryMul (w a b : Nat) : Res Nat :=
  if a * b < w then .ok (a * b) else .error .arithmeticOverflow

/-- Checked subtraction on unsigned integers (try_sub); fails when b exceeds a. -/
def trySub (a b : Nat) : Res Nat :=
  if b ≤ a then .ok (a - b) else .error .arithmeticOverflow

/-- Checked division (try_div); fails on a zero divisor. -/
def tryDiv (a b : Nat) : Res Nat :=
  if b = 0 then .error .divideByZero else .ok (a / b)

/-- Checked narrowing cast to width w, failing with error e when out of range. -/
def tryCast (w : Nat) (e : SwapErr) (a : Nat) : Res Nat :=
  if a < w then .ok a else .error e

/-- Absolute difference on unsigned integers (abs_diff). -/
def absDiff (a b : Nat) : Nat := max a b - min a b

/-- Replace the error of a failed computation (map_err of the source). -/
def mapErrTo {α : Type} (e : SwapErr) : Res α → Res α
  | .error _ => .error e
  | .ok a => .ok a

/-- Turn an optional value into a result (ok_or_else of the source). -/
def okOr {α : Type} (e : SwapErr) : Option α → Res α
  | none => .error e
  | some v => .ok v

/-- Ceiling division on naturals, the rounding used by checked_ceil_div on a
positive quotient. -/
def ceilDiv (a b : Nat) : Nat := (a + b - 1) / b

/-- The direction of a trade (calculator.rs, TradeDirection). -/
inductive TradeDirection where
  | AtoB
  | BtoA
  deriving DecidableEq, Repr

/-- Rounding direction for pool-token conversions (calculator.rs, RoundDirection). -/
inductive RoundDirection where
  | Floor
  | Ceiling
  deriving DecidableEq, Repr

/-- Result of swapping without fees (calculator.rs, SwapWithoutFeesResult). -/
structure SwapWithoutFeesResult where
  source_amount_swapped : Nat
  destination_amount_swapped : Nat
  deriving DecidableEq, Repr

/-- Result of converting pool tokens to trading tokens (calculator.rs,
TradingTokenResult). -/
structure TradingTokenResult where
  token_a_amount : Nat
  token_b_amount : Nat
  deriving DecidableEq, Repr

/-- The stable curve parameters (state::StableCurve), as used by stable.rs:
the amplification coefficient and the two decimal scaling factors. -/
structure StableCurve where
  amp : Nat
  token_a_factor : Nat
  token_b_factor : Nat
  deriving DecidableEq, Repr

/-- Number of token types in the pool (stable.rs, N_COINS). -/
def N_COINS : Nat := 2

/-- Iteration bound of the Newton solvers (stable.rs, ITERATIONS). -/
def ITERATIONS : Nat := 256

/-- Minimum amplification coefficient (stable.rs, MIN_AMP). -/
def MIN_AMP : Nat := 1

/-- Maximum amplification coefficient (stable.rs, MAX_AMP). -/
def MAX_AMP : Nat := 1000000

/-- Calculates A times n for deriving D (stable.rs, compute_ann); u64 checked
multiplication. -/
def compute_ann (amp : Nat) : Res Nat :=
  tryMul U64_SIZE amp N_COINS

/-- Squaring in U256 (stable.rs, try_u8_power with exponent 2). -/
def tryU8Power2 (a : Nat) : Res Nat :=
  tryMul U256_SIZE a a

/-- Doubling in U256 (stable.rs, try_u8_mul with multiplier 2). -/
def tryU8Mul2 (a : Nat) : Res Nat :=
  tryAdd U256_SIZE a a

/-- Tripling in U256 (stable.rs, try_u8_mul with multiplier 3, as used by
compute_next_d for N_COINS + 1). -/
def tryU8Mul3 (a : Nat) : Res Nat := do
  tryAdd U256_SIZE (← tryAdd U256_SIZE a a) a

/-- One Newton update of D (stable.rs, compute_next_d):
D_next = (AnnS + D_P * n) * D / ((Ann - 1) * D + (n + 1) * D_P). -/
def compute_next_d (ann d_init d_product sum_x : Nat) : Res Nat := do
  let anns ← tryMul U256_SIZE ann sum_x
  let dpn ← tryU8Mul2 d_product
  let t ← tryAdd U256_SIZE anns dpn
  let numerator ← tryMul U256_SIZE t d_init
  let annm1 ← trySub ann 1
  let t2 ← tryMul U256_SIZE d_init annm1
  let dpn1 ← tryU8Mul3 d_product
  let denominator ← tryAdd U256_SIZE t2 dpn1
  tryDiv numerator denominator

/-- One iteration of the D loop body of stable.rs compute_d: computes
D_P = D * D / (2 a) * D / (2 b) in the staged form of the source, then the
Newton update. -/
def dStep (ann sum_x a2 b2 d : Nat) : Res Nat := do
  let t1 ← tryMul U256_SIZE d d
  let dp1 ← tryDiv t1 a2
  let t2 ← tryMul U256_SIZE dp1 d
  let d_product ← tryDiv t2 b2
  compute_next_d ann d d_product sum_x

/-- The bounded iteration of stable.rs compute_d: runs dStep up to the fuel
bound, breaking as soon as two successive iterates are within 1 of each other;
on fuel exhaustion it returns the last iterate. -/
def dLoop (ann sum_x a2 b2 : Nat) : Nat → Nat → Res Nat
  | 0, d => .ok d
  | fuel + 1, d => do
    let dNext ← dStep ann sum_x a2 b2 d
    if absDiff dNext d ≤ 1 then .ok dNext
    else dLoop ann sum_x a2 b2 fuel dNext

/-- Compute the stable swap invariant D (stable.rs, compute_d). -/
def compute_d (ann amount_a amount_b : Nat) : Res Nat := do
  let sum_x ← tryAdd U128_SIZE amount_a amount_b
  if sum_x = 0 then .ok 0
  else do
    let a2 ← tryU8Mul2 amount_a
    let b2 ← tryU8Mul2 amount_b
    let d ← dLoop ann sum_x a2 b2 ITERATIONS sum_x
    tryCast U128_SIZE .conversionFailure d

/-- One iteration of the y loop body of stable.rs compute_y:
y_next = ceil_div (y * y + c) (2 y + b - D), where a failed checked_ceil_div
(zero divisor or zero quotient) falls back to 0 when the numerator is zero and
to 1 otherwise, exactly as the source's unwrap_or_else. -/
def yStep (b c d y : Nat) : Res Nat := do
  let y2 ← tryU8Power2 y
  let numerator ← tryAdd U256_SIZE y2 c
  let ty ← tryU8Mul2 y
  let t ← tryAdd U256_SIZE ty b
  let denominator ← trySub t d
  if numerator = 0 then .ok 0
  else if denominator = 0 then .ok 1
  else if numerator < denominator then .ok 1
  else .ok (ceilDiv numerator denominator)

/-- The bounded iteration of stable.rs compute_y: runs yStep up to the fuel
bound, breaking as soon as an iterate repeats; on fuel exhaustion it returns
the last iterate. -/
def yLoop (b c d : Nat) : Nat → Nat → Res Nat
  | 0, y => .ok y
  | fuel + 1, y => do
    let yNew ← yStep b c d y
    if yNew = y then .ok yNew
    else yLoop b c d fuel yNew

/-- Compute the counter-reserve y for a new source reserve x and invariant D
(stable.rs, compute_y). -/
def compute_y (ann x d : Nat) : Res Nat := do
  let ddivann ← tryDiv d ann
  let b ← tryAdd U256_SIZE x ddivann
  let xn ← tryMul U128_SIZE x N_COINS
  let t1 ← tryMul U256_SIZE d d
  let c1 ← tryDiv t1 xn
  let t2 ← tryMul U256_SIZE c1 d
  let annn ← tryMul U256_SIZE ann N_COINS
  let c ← tryDiv t2 annn
  let y ← yLoop b c d ITERATIONS d
  tryCast U128_SIZE .calculationFailure y

/-- Scale an amount up by a factor (stable.rs, scale_up); a zero factor is a
CalculationFailure, a factor of one is the identity. -/
def scale_up (source_amount factor : Nat) : Res Nat :=
  if factor = 0 then .error .calculationFailure
  else if 1 < factor then tryMul U128_SIZE source_amount factor
  else .ok source_amount

/-- Scale an amount down by a factor (stable.rs, scale_down), optionally
rounding up when there is a remainder. -/
def scale_down (source_amount factor : Nat) (round_up : Bool) : Res Nat :=
  if factor = 0 then .error .calculationFailure
  else if 1 < factor then
    let amount := source_amount / factor
    if round_up ∧ factor * amount < source_amount then .ok (amount + 1)
    else .ok amount
  else .ok source_amount

/-- Scale the three swap inputs up by the direction-appropriate factors
(stable.rs, scale_swap_inputs). -/
def scale_swap_inputs (curve : StableCurve)
    (source_amount pool_source_amount pool_destination_amount : Nat)
    (trade_direction : TradeDirection) : Res (Nat × Nat × Nat) :=
  match trade_direction with
  | .AtoB => do
    let s ← scale_up source_amount curve.token_a_factor
    let ps ← scale_up pool_source_amount curve.token_a_factor
    let pd ← scale_up pool_destination_amount curve.token_b_factor
    .ok (s, ps, pd)
  | .BtoA => do
    let s ← scale_up source_amount curve.token_b_factor
    let ps ← scale_up pool_source_amount curve.token_b_factor
    let pd ← scale_up pool_destination_amount curve.token_a_factor
    .ok (s, ps, pd)

/-- Scale the new destination reserve back down, rounding up so the pool is
favoured (stable.rs, scale_swap_outputs). -/
def scale_swap_outputs (curve : StableCurve)
    (new_pool_destination_amount : Nat)
    (trade_direction : TradeDirection) : Res Nat :=
  let factor := match trade_direction with
    | .AtoB => curve.token_b_factor
    | .BtoA => curve.token_a_factor
  scale_down new_pool_destination_amount factor true

/-- The stable curve swap (stable.rs, StableCurve::swap_without_fees). -/
def swap_without_fees (curve : StableCurve)
    (source_amount pool_source_amount pool_destination_amount : Nat)
    (trade_direction : TradeDirection) : Res SwapWithoutFeesResult :=
  if source_amount = 0 then
    .ok { source_amount_swapped := 0, destination_amount_swapped := 0 }
  else do
    let ann ← compute_ann curve.amp
    let (source_amt_scaled, pool_source_amt_scaled, pool_dest_amt_scaled) ←
      scale_swap_inputs curve source_amount pool_source_amount
        pool_destination_amount trade_direction
    let new_source_amount ← tryAdd U128_SIZE pool_source_amt_scaled source_amt_scaled
    let d ← compute_d ann pool_source_amt_scaled pool_dest_amt_scaled
    let new_destination_amount ← compute_y ann new_source_amount d
    let scaled_out ← scale_swap_outputs curve new_destination_amount trade_direction
    let amount_swapped ← trySub pool_destination_amount scaled_out
    .ok { source_amount_swapped := source_amount,
          destination_amount_swapped := amount_swapped }

/-- Parameter validation of the stable curve (stable.rs, StableCurve::validate):
requires MIN_AMP < amp and amp < MAX_AMP, raising InvalidCurve otherwise. -/
def validate (curve : StableCurve) : Res Unit :=
  if ¬ (MIN_AMP < curve.amp) then .error .invalidCurve
  else if ¬ (curve.amp < MAX_AMP) then .error .invalidCurve
  else .ok ()

/-- The normalized pool value of the stable curve on the production path
(stable.rs, StableCurve::normalized_value): the invariant D of the raw,
unscaled reserves; the PreciseNumber wrapper of the source carries exactly
this integer. -/
def normalized_value (curve : StableCurve)
    (pool_token_a_amount pool_token_b_amount : Nat) : Res Nat := do
  let leverage ← compute_ann curve.amp
  compute_d leverage pool_token_a_amount pool_token_b_amount

/-- Modelled from the spec: the shared pool-token to trading-token splitter
(curve::math::pool_tokens_to_trading_tokens, which is not under src/).
Spec 4.2.2: for each side, amount_i = pool_tokens * reserve_i /
pool_token_supply, rounded per the round direction.  The Ceiling behaviour at
a zero floor quotient is pinned by the in-source tests (stable.rs,
run_deposit_scenarios: pool_token_amount 1, supply 100, reserve_b 1 yields
token_b 0): the ceiling bump applies only when the floor quotient is
positive. -/
def pool_tokens_to_trading_tokens (pool_tokens pool_token_supply
    pool_token_a_amount pool_token_b_amount : Nat)
    (round_direction : RoundDirection) : Res TradingTokenResult := do
  let na ← tryMul U128_SIZE pool_tokens pool_token_a_amount
  let ta ← tryDiv na pool_token_supply
  let nb ← tryMul U128_SIZE pool_tokens pool_token_b_amount
  let tb ← tryDiv nb pool_token_supply
  match round_direction with
  | .Floor => .ok { token_a_amount := ta, token_b_amount := tb }
  | .Ceiling =>
    let ta := if 0 < na % pool_token_supply ∧ 0 < ta then ta + 1 else ta
    let tb := if 0 < nb % pool_token_supply ∧ 0 < tb then tb + 1 else tb
    .ok { token_a_amount := ta, token_b_amount := tb }

/-- The trade-fee parameters of the pool (curve::fees::Fees) that the embedded
code paths read. -/
structure Fees where
  owner_trade_fee_numerator : Nat
  owner_trade_fee_denominator : Nat
  host_fee_numerator : Nat
  host_fee_denominator : Nat
  owner_withdraw_fee_numerator : Nat
  owner_withdraw_fee_denominator : Nat
  deriving DecidableEq, Repr

/-- Modelled from the spec: the fee share computation of curve::fees (not under
src/): the floor share of the amount, with a minimum fee of one token when the
amount and numerator are nonzero, as pinned by the in-source test comments of
token_2022.rs (for example, 10 bps of 9 rounds up to 1). -/
def calculate_fee (token_amount fee_numerator fee_denominator : Nat) : Res Nat :=
  if fee_numerator = 0 ∨ token_amount = 0 then .ok 0
  else do
    let t ← tryMul U128_SIZE token_amount fee_numerator
    let fee ← tryDiv t fee_denominator
    if fee = 0 then .ok 1 else .ok fee

/-- Owner trading fee of a trade (curve::fees, owner_trading_fee). -/
def owner_trading_fee (fees : Fees) (trading_tokens : Nat) : Res Nat :=
  calculate_fee trading_tokens fees.owner_trade_fee_numerator
    fees.owner_trade_fee_denominator

/-- Host portion of the owner trading fee (curve::fees, host_fee). -/
def host_fee (fees : Fees) (owner_fee : Nat) : Res Nat :=
  calculate_fee owner_fee fees.host_fee_numerator fees.host_fee_denominator

/-- Owner withdraw fee (curve::fees, owner_withdraw_fee). -/
def owner_withdraw_fee (fees : Fees) (pool_tokens : Nat) : Res Nat :=
  calculate_fee pool_tokens fees.owner_withdraw_fee_numerator
    fees.owner_withdraw_fee_denominator

/-- A transfer-fee configuration of a token-2022 mint: the fee in basis points
and the per-transfer fee cap. -/
structure TransferFee where
  transfer_fee_basis_points : Nat
  maximum_fee : Nat
  deriving DecidableEq, Repr

/-- One hundred percent in basis points. -/
def ONE_IN_BASIS_POINTS : Nat := 10000

/-- Modelled from the spec: the per-transfer fee of the token-2022
TransferFeeConfig (an external library the adapter of token_2022.rs consumes):
the basis-point share of the amount rounded up, capped at maximum_fee.  Pinned
by the in-source tests of token_2022.rs (10 bps of 10_000 is 10; 10 bps of 100
rounds up to 1; the tests use maximum_fee u64::MAX so the cap is idle there). -/
def calculate_epoch_fee (tf : TransferFee) (amount : Nat) : Option Nat :=
  if tf.transfer_fee_basis_points = 0 ∨ amount = 0 then some 0
  else
    let raw := ceilDiv (amount * tf.transfer_fee_basis_points) ONE_IN_BASIS_POINTS
    some (min raw tf.maximum_fee)

/-- Modelled from the spec: the smallest pre-fee amount whose post-fee amount
covers the given value (spec 6: the inverse is the smallest pre such that
sub(pre) is at least post), as computed by the token-2022 library: the ceiling
of post / (1 - bps), clamped to post + maximum_fee when the cap binds, with
u64 range checks on the way out. -/
def calculate_pre_fee_amount (tf : TransferFee) (post_fee_amount : Nat) : Option Nat :=
  if tf.transfer_fee_basis_points = 0 then some post_fee_amount
  else if post_fee_amount = 0 then some 0
  else if tf.transfer_fee_basis_points = ONE_IN_BASIS_POINTS then
    if tf.maximum_fee + post_fee_amount < U64_SIZE then
      some (tf.maximum_fee + post_fee_amount)
    else none
  else if ONE_IN_BASIS_POINTS < tf.transfer_fee_basis_points then none
  else
    let denominator := ONE_IN_BASIS_POINTS - tf.transfer_fee_basis_points
    let raw := ceilDiv (post_fee_amount * ONE_IN_BASIS_POINTS) denominator
    if tf.maximum_fee ≤ raw - post_fee_amount then
      if post_fee_amount + tf.maximum_fee < U64_SIZE then
        some (post_fee_amount + tf.maximum_fee)
      else none
    else if raw < U64_SIZE then some raw else none

/-- The fee that must be added to a post-fee amount to recover a pre-fee amount
(token-2022 calculate_inverse_epoch_fee): the epoch fee of the pre-fee
amount. -/
def calculate_inverse_epoch_fee (tf : TransferFee) (post_fee_amount : Nat) : Option Nat :=
  (calculate_pre_fee_amount tf post_fee_amount).bind (calculate_epoch_fee tf)

/-- Subtract token mint transfer fees from an amount (token_2022.rs,
sub_transfer_fee); a missing transfer-fee configuration is the identity. -/
def sub_transfer_fee (transfer_fees : Option TransferFee) (amount : Nat) : Res Nat :=
  match transfer_fees with
  | none => .ok amount
  | some tf => do
    let a64 ← tryCast U64_SIZE .conversionFailure amount
    let fee ← okOr .feeCalculationFailure (calculate_epoch_fee tf a64)
    trySub amount fee

/-- Subtract token mint transfer fees from a u64 amount (token_2022.rs,
sub_transfer_fee2); a mint without the transfer-fee extension is the
identity. -/
def sub_transfer_fee2 (transfer_fees : Option TransferFee) (amount : Nat) : Res Nat :=
  match transfer_fees with
  | none => .ok amount
  | some tf => do
    let fee ← okOr .feeCalculationFailure (calculate_epoch_fee tf amount)
    trySub amount fee

/-- Add the inverse transfer fee to a post-fee amount (token_2022.rs,
add_inverse_transfer_fee). -/
def add_inverse_transfer_fee (transfer_fees : Option TransferFee)
    (post_fee_amount : Nat) : Res Nat :=
  match transfer_fees with
  | none => .ok post_fee_amount
  | some tf => do
    let p64 ← tryCast U64_SIZE .conversionFailure post_fee_amount
    let fee ← okOr .feeCalculationFailure (calculate_inverse_epoch_fee tf p64)
    tryAdd U128_SIZE post_fee_amount fee

/-- The host-fee leg of sub_input_transfer_fees: when the host-fee flag is
set, the host share of the owner fee and its transfer fee; otherwise both
zero. -/
def input_host_fees (tf : TransferFee) (fees : Fees)
    (owner_and_host_fee : Nat) (host_fee_on : Bool) : Res (Nat × Nat) :=
  if host_fee_on then do
    let hf ← host_fee fees owner_and_host_fee
    let hf64 ← tryCast U64_SIZE .conversionFailure hf
    let htf ← okOr .feeCalculationFailure (calculate_epoch_fee tf hf64)
    pure (hf, htf)
  else pure (0, 0)

/-- Subtract the transfer fees of the up to three input transfers of a swap
(token_2022.rs, sub_input_transfer_fees): the gross input is split into the
vault, owner-fee and optional host-fee legs, each leg's transfer fee is
computed, and the input net of the three transfer fees is returned. -/
def sub_input_transfer_fees (transfer_fees : Option TransferFee) (fees : Fees)
    (amount_in : Nat) (host_fee_on : Bool) : Res Nat :=
  match transfer_fees with
  | none => .ok amount_in
  | some tf => do
    let owner_and_host_fee ← owner_trading_fee fees amount_in
    let hostPair ← input_host_fees tf fees owner_and_host_fee host_fee_on
    let owner_fee ← trySub owner_and_host_fee hostPair.1
    let of64 ← tryCast U64_SIZE .conversionFailure owner_fee
    let owner_transfer_fee ←
      okOr .feeCalculationFailure (calculate_epoch_fee tf of64)
    let oh64 ← tryCast U64_SIZE .conversionFailure owner_and_host_fee
    let vault_amount_in ← trySub amount_in oh64
    let vault_transfer_fee ←
      okOr .feeCalculationFailure (calculate_epoch_fee tf vault_amount_in)
    let s1 ← trySub amount_in vault_transfer_fee
    let s2 ← trySub s1 owner_transfer_fee
    trySub s2 hostPair.2

/-- The inputs of the withdraw-all-token-types handler that feed its
arithmetic: the instruction arguments, the vault balances, the pool token
supply, and the pool's fee parameters. -/
structure WithdrawAllInputs where
  pool_token_amount : Nat
  minimum_token_a_amount : Nat
  minimum_token_b_amount : Nat
  pool_token_supply : Nat
  token_a_vault_amount : Nat
  token_b_vault_amount : Nat
  fees : Fees
  deriving DecidableEq, Repr

/-- The amounts the withdraw-all-token-types handler transfers and emits. -/
structure WithdrawAllOutcome where
  pool_token_amount : Nat
  token_a_amount : Nat
  token_b_amount : Nat
  fee : Nat
  deriving DecidableEq, Repr

/-- The arithmetic of the withdraw-all-token-types handler
(instructions/withdraw_all_token_types.rs, handler): subtract the owner
withdraw fee, split the remaining pool tokens with Floor rounding, cap each
side at the corresponding vault balance, and enforce the slippage and
zero-output checks, in source order. -/
def withdraw_all_token_types (w : WithdrawAllInputs) : Res WithdrawAllOutcome := do
  let withdraw_fee ←
    mapErrTo .feeCalculationFailure (owner_withdraw_fee w.fees w.pool_token_amount)
  let pool_token_amount ← trySub w.pool_token_amount withdraw_fee
  let results ←
    mapErrTo .zeroTradingTokens
      (pool_tokens_to_trading_tokens pool_token_amount w.pool_token_supply
        w.token_a_vault_amount w.token_b_vault_amount .Floor)
  let ta ← tryCast U64_SIZE .conversionFailure results.token_a_amount
  let token_a_amount := min w.token_a_vault_amount ta
  if ¬ (w.minimum_token_a_amount ≤ token_a_amount) then .error .exceededSlippage
  else if ¬ (0 < token_a_amount ∨ w.token_a_vault_amount = 0) then
    .error .zeroTradingTokens
  else do
    let tb ← tryCast U64_SIZE .conversionFailure results.token_b_amount
    let token_b_amount := min w.token_b_vault_amount tb
    if ¬ (w.minimum_token_b_amount ≤ token_b_amount) then .error .exceededSlippage
    else if ¬ (0 < token_b_amount ∨ w.token_b_vault_amount = 0) then
      .error .zeroTradingTokens
    else do
      let withdraw_fee64 ← tryCast U64_SIZE .conversionFailure withdraw_fee
      let pool_token_amount64 ← tryCast U64_SIZE .conversionFailure pool_token_amount
      .ok { pool_token_amount := pool_token_amount64,
            token_a_amount := token_a_amount,
            token_b_amount := token_b_amount,
            fee := withdraw_fee64 }

/-- The transfer-fee basis points of an optional transfer-fee configuration;
zero when the configuration is absent. -/
def configBasisPoints : Option TransferFee → Nat
  | none => 0
  | some tf => tf.transfer_fee_basis_points

/-- The one-shot transfer fee of an amount does not hit the maximum-fee cap of
the configuration (trivially true when the configuration is absent).  Under
this condition every leg of a split of the amount is also uncapped. -/
def feeUncapped : Option TransferFee → Nat → Prop
  | none, _ => True
  | some tf, amount =>
    ceilDiv (amount * tf.transfer_fee_basis_points) ONE_IN_BASIS_POINTS ≤ tf.maximum_fee

instance : ∀ (cfg : Option TransferFee) (a : Nat), Decidable (feeUncapped cfg a) := by
  intro cfg a
  cases cfg <;> simp [feeUncapped] <;> infer_instance

/-- Errors raised by the checked arithmetic primitives. -/
def arithErr (e : SwapErr) : Prop :=
  e = .arithmeticOverflow ∨ e = .divideByZero

/-- The value calculate_epoch_fee returns: the rounded-up basis-point share of
the amount, capped at maximum_fee. -/
def feeOf (tf : TransferFee) (amount : Nat) : Nat :=
  min (ceilDiv (amount * tf.transfer_fee_basis_points) ONE_IN_BASIS_POINTS)
    tf.maximum_fee

/-! Helper lemmas about the result monad and the checked operations. -/

theorem resBind_ok {α β : Type} {x : Res α} {f : α → Res β} {r : β}
    (h : x >>= f = .ok r) : ∃ a, x = .ok a ∧ f a = .ok r := by
  cases x with
  | error e => exact absurd h (by simp [Bind.bind, Except.bind])
  | ok a => exact ⟨a, rfl, h⟩

theorem resBind_error {α β : Type} {x : Res α} {f : α → Res β} {e : SwapErr}
    (h : x >>= f = .error e) : x = .error e ∨ ∃ a, x = .ok a ∧ f a = .error e := by
  cases x with
  | error e1 =>
    left
    have : e1 = e := by simpa [Bind.bind, Except.bind] using h
    rw [this]
  | ok a => exact .inr ⟨a, rfl, h⟩

theorem tryAdd_ok {w a b c : Nat} (h : tryAdd w a b = .ok c) :
    c = a + b ∧ a + b < w := by
  unfold tryAdd at h
  split at h <;> simp_all

theorem tryMul_ok {w a b c : Nat} (h : tryMul w a b = .ok c) :
    c = a * b ∧ a * b < w := by
  unfold tryMul at h
  split at h <;> simp_all

theorem trySub_ok {a b c : Nat} (h : trySub a b = .ok c) :
    c = a - b ∧ b ≤ a := by
  unfold trySub at h
  split at h <;> simp_all

theorem tryDiv_ok {a b c : Nat} (h : tryDiv a b = .ok c) :
    c = a / b ∧ 0 < b := by
  unfold tryDiv at h
  split at h <;> simp_all
  omega

theorem tryCast_ok {w : Nat} {e : SwapErr} {a c : Nat} (h : tryCast w e a = .ok c) :
    c = a ∧ a < w := by
  unfold tryCast at h
  split at h <;> simp_all

theorem tryAdd_error {w a b : Nat} {e : SwapErr} (h : tryAdd w a b = .error e) :
    arithErr e := by
  unfold tryAdd at h
  split at h <;> simp_all [arithErr]

theorem tryMul_error {w a b : Nat} {e : SwapErr} (h : tryMul w a b = .error e) :
    arithErr e := by
  unfold tryMul at h
  split at h <;> simp_all [arithErr]

theorem trySub_error {a b : Nat} {e : SwapErr} (h : trySub a b = .error e) :
    arithErr e := by
  unfold trySub at h
  split at h <;> simp_all [arithErr]

theorem tryDiv_error {a b : Nat} {e : SwapErr} (h : tryDiv a b = .error e) :
    arithErr e := by
  unfold tryDiv at h
  split at h <;> simp_all [arithErr]

theorem tryCast_error {w : Nat} {e0 e : SwapErr} {a : Nat}
    (h : tryCast w e0 a = .error e) : e = e0 := by
  unfold tryCast at h
  split at h <;> simp_all

theorem tryU8Mul2_error {a : Nat} {e : SwapErr} (h : tryU8Mul2 a = .error e) :
    arithErr e := tryAdd_error h

theorem tryU8Mul3_error {a : Nat} {e : SwapErr} (h : tryU8Mul3 a = .error e) :
    arithErr e := by
  unfold tryU8Mul3 at h
  rcases resBind_error h with h | ⟨x, _, h⟩
  · exact tryAdd_error h
  · exact tryAdd_error h

theorem compute_next_d_error {ann d_init d_product sum_x : Nat} {e : SwapErr}
    (h : compute_next_d ann d_init d_product sum_x = .error e) : arithErr e := by
  unfold compute_next_d at h
  rcases resBind_error h with h | ⟨x1, _, h⟩
  · exact tryMul_error h
  rcases resBind_error h with h | ⟨x2, _, h⟩
  · exact tryU8Mul2_error h
  rcases resBind_error h with h | ⟨x3, _, h⟩
  · exact tryAdd_error h
  rcases resBind_error h with h | ⟨x4, _, h⟩
  · exact tryMul_error h
  rcases resBind_error h with h | ⟨x5, _, h⟩
  · exact trySub_error h
  rcases resBind_error h with h | ⟨x6, _, h⟩
  · exact tryMul_error h
  rcases resBind_error h with h | ⟨x7, _, h⟩
  · exact tryU8Mul3_error h
  rcases resBind_error h with h | ⟨x8, _, h⟩
  · exact tryAdd_error h
  exact tryDiv_error h

theorem dStep_error {ann sum_x a2 b2 d : Nat} {e : SwapErr}
    (h : dStep ann sum_x a2 b2 d = .error e) : arithErr e := by
  unfold dStep at h
  rcases resBind_error h with h | ⟨x1, _, h⟩
  · exact tryMul_error h
  rcases resBind_error h with h | ⟨x2, _, h⟩
  · exact tryDiv_error h
  rcases resBind_error h with h | ⟨x3, _, h⟩
  · exact tryMul_error h
  rcases resBind_error h with h | ⟨x4, _, h⟩
  · exact tryDiv_error h
  exact compute_next_d_error h

theorem dLoop_error {ann sum_x a2 b2 : Nat} :
    ∀ (fuel d : Nat) {e : SwapErr},
      dLoop ann sum_x a2 b2 fuel d = .error e → arithErr e := by
  intro fuel
  induction fuel with
  | zero => intro d e h; exact absurd h (by simp [dLoop])
  | succ n ih =>
    intro d e h
    unfold dLoop at h
    rcases resBind_error h with h | ⟨dn, _, h⟩
    · exact dStep_error h
    · split at h
      · exact absurd h (by simp)
      · exact ih dn h

theorem yStep_error {b c d y : Nat} {e : SwapErr}
    (h : yStep b c d y = .error e) : arithErr e := by
  unfold yStep at h
  rcases resBind_error h with h | ⟨x1, _, h⟩
  · exact tryMul_error h
  rcases resBind_error h with h | ⟨x2, _, h⟩
  · exact tryAdd_error h
  rcases resBind_error h with h | ⟨x3, _, h⟩
  · exact tryAdd_error h
  rcases resBind_error h with h | ⟨x4, _, h⟩
  · exact tryAdd_error h
  rcases resBind_error h with h | ⟨x5, _, h⟩
  · exact trySub_error h
  · split at h
    · exact absurd h (by simp)
    · split at h
      · exact absurd h (by simp)
      · split at h <;> exact absurd h (by simp)

theorem yLoop_error {b c d : Nat} :
    ∀ (fuel y : Nat) {e : SwapErr},
      yLoop b c d fuel y = .error e → arithErr e := by
  intro fuel
  induction fuel with
  | zero => intro y e h; exact absurd h (by simp [yLoop])
  | succ n ih =>
    intro y e h
    unfold yLoop at h
    rcases resBind_error h with h | ⟨yn, _, h⟩
    · exact yStep_error h
    · split at h
      · exact absurd h (by simp)
      · exact ih yn h

/-! Claim theorems. -/

/-- C1: the claim states that for every curve variant and swap input with
positive reserves the normalized value of the post-trade reserves never
decreases and increases by at most one normalized unit.  The code violates
this: for the stable curve with amp 2 and scaling factors (1, 10) (token
decimals differing by one), swapping 1 unit of A into the pool (1, 100)
consumes 1 and pays out 26, and the normalized value (the invariant D of the
raw reserves computed by normalized_value) drops from 47 to 46.  This theorem
evaluates the code at that failing input. -/
theorem c1_swap_decreases_normalized_value_at_failing_input :
    swap_without_fees { amp := 2, token_a_factor := 1, token_b_factor := 10 }
        1 1 100 .AtoB =
      .ok { source_amount_swapped := 1, destination_amount_swapped := 26 } ∧
    normalized_value { amp := 2, token_a_factor := 1, token_b_factor := 10 }
        1 100 = .ok 47 ∧
    normalized_value { amp := 2, token_a_factor := 1, token_b_factor := 10 }
        (1 + 1) (100 - 26) = .ok 46 ∧
    46 < 47 := by
  refine ⟨by decide, by decide, by decide, by decide⟩

/-- C3: the stable-swap iterative solvers never raise an error merely because
the 256-iteration bound was exhausted: the D loop and the y loop return the
last iterate as a success when their fuel runs out, a step whose next iterate
misses the termination predicate just continues the loop on the remaining
fuel, and every error compute_d or compute_y can return comes from the checked
arithmetic or the final narrowing conversion, never from non-convergence. -/
theorem c3_solvers_return_last_iterate_on_exhaustion :
    (∀ ann sum_x a2 b2 d, dLoop ann sum_x a2 b2 0 d = .ok d) ∧
    (∀ ann sum_x a2 b2 fuel d dn, dStep ann sum_x a2 b2 d = .ok dn →
      1 < absDiff dn d →
      dLoop ann sum_x a2 b2 (fuel + 1) d = dLoop ann sum_x a2 b2 fuel dn) ∧
    (∀ b c d y, yLoop b c d 0 y = .ok y) ∧
    (∀ b c d fuel y yn, yStep b c d y = .ok yn → yn ≠ y →
      yLoop b c d (fuel + 1) y = yLoop b c d fuel yn) ∧
    (∀ ann a b e, compute_d ann a b = .error e →
      e = .arithmeticOverflow ∨ e = .divideByZero ∨ e = .conversionFailure) ∧
    (∀ ann x d e, compute_y ann x d = .error e →
      e = .arithmeticOverflow ∨ e = .divideByZero ∨ e = .calculationFailure) := by
  refine ⟨fun _ _ _ _ _ => rfl, ?_, fun _ _ _ _ => rfl, ?_, ?_, ?_⟩
  · intro ann sum_x a2 b2 fuel d dn hstep hfar
    conv_lhs => rw [dLoop]
    rw [hstep]
    show (if absDiff dn d ≤ 1 then Except.ok dn
      else dLoop ann sum_x a2 b2 fuel dn) = _
    rw [if_neg (by omega)]
  · intro b c d fuel y yn hstep hne
    conv_lhs => rw [yLoop]
    rw [hstep]
    show (if yn = y then Except.ok yn else yLoop b c d fuel yn) = _
    rw [if_neg hne]
  · intro ann a b e h
    unfold compute_d at h
    rcases resBind_error h with h | ⟨s, _, h⟩
    · rcases tryAdd_error h with h | h <;> simp [h]
    split at h
    · exact absurd h (by simp)
    rcases resBind_error h with h | ⟨a2, _, h⟩
    · rcases tryU8Mul2_error h with h | h <;> simp [h]
    rcases resBind_error h with h | ⟨b2, _, h⟩
    · rcases tryU8Mul2_error h with h | h <;> simp [h]
    rcases resBind_error h with h | ⟨d, _, h⟩
    · rcases dLoop_error _ _ h with h | h <;> simp [h]
    · rw [tryCast_error h]
      simp
  · intro ann x d e h
    unfold compute_y at h
    rcases resBind_error h with h | ⟨t1, _, h⟩
    · rcases tryDiv_error h with h | h <;> simp [h]
    rcases resBind_error h with h | ⟨b, _, h⟩
    · rcases tryAdd_error h with h | h <;> simp [h]
    rcases resBind_error h with h | ⟨xn, _, h⟩
    · rcases tryMul_error h with h | h <;> simp [h]
    rcases resBind_error h with h | ⟨t2, _, h⟩
    · rcases tryMul_error h with h | h <;> simp [h]
    rcases resBind_error h with h | ⟨c1, _, h⟩
    · rcases tryDiv_error h with h | h <;> simp [h]
    rcases resBind_error h with h | ⟨t3, _, h⟩
    · rcases tryMul_error h with h | h <;> simp [h]
    rcases resBind_error h with h | ⟨annn, _, h⟩
    · rcases tryMul_error h with h | h <;> simp [h]
    rcases resBind_error h with h | ⟨c, _, h⟩
    · rcases tryDiv_error h with h | h <;> simp [h]
    rcases resBind_error h with h | ⟨y, _, h⟩
    · rcases yLoop_error _ _ h with h | h <;> simp [h]
    · rw [tryCast_error h]
      simp

/-- C3 witness: concrete runs of both loops.  With ann 4 and scaled reserves
(1, 100), one D step from the initial guess 101 yields 69 (a jump of 32, far
from the termination predicate), so the loop with fuel 1 continues into the
loop with fuel 0, which returns its argument; similarly one y step from 47
yields 91 for the concrete quadratic coefficients (13, 3243, 47).  The error
conjuncts are exercised at ann 0, where the D update underflows ann - 1 and
the y solver divides by ann = 0. -/
theorem c3_solvers_return_last_iterate_on_exhaustion_witness :
    dLoop 4 101 2 200 0 101 = .ok 101 ∧
    dLoop 4 101 2 200 1 101 = dLoop 4 101 2 200 0 69 ∧
    yLoop 13 3243 47 0 47 = .ok 47 ∧
    yLoop 13 3243 47 1 47 = yLoop 13 3243 47 0 91 ∧
    (SwapErr.arithmeticOverflow = .arithmeticOverflow ∨
      SwapErr.arithmeticOverflow = .divideByZero ∨
      SwapErr.arithmeticOverflow = .conversionFailure) ∧
    (SwapErr.divideByZero = .arithmeticOverflow ∨
      SwapErr.divideByZero = .divideByZero ∨
      SwapErr.divideByZero = .calculationFailure) :=
  ⟨c3_solvers_return_last_iterate_on_exhaustion.1 4 101 2 200 101,
   c3_solvers_return_last_iterate_on_exhaustion.2.1 4 101 2 200 0 101 69
     (by decide) (by decide),
   c3_solvers_return_last_iterate_on_exhaustion.2.2.1 13 3243 47 47,
   c3_solvers_return_last_iterate_on_exhaustion.2.2.2.1 13 3243 47 0 47 91
     (by decide) (by decide),
   c3_solvers_return_last_iterate_on_exhaustion.2.2.2.2.1 0 1 1
     .arithmeticOverflow (by decide),
   c3_solvers_return_last_iterate_on_exhaustion.2.2.2.2.2 0 1 1
     .divideByZero (by decide)⟩

/-- C4: the claim states that validate rejects amp out of range and also
rejects a zero scaling factor.  The code only checks the amp bounds: a curve
with a zero token_a_factor and an in-range amp validates successfully, so the
claim is false as stated. -/
theorem c4_validate_accepts_zero_factor_counterexample :
    validate { amp := 100, token_a_factor := 0, token_b_factor := 1 } = .ok () ∧
    ¬ validate { amp := 100, token_a_factor := 0, token_b_factor := 1 } =
        .error .invalidCurve := by
  refine ⟨by decide, by decide⟩

/-- C4 amended: StableCurve::validate returns ok exactly when
MIN_AMP < amp < MAX_AMP and returns InvalidCurve otherwise; it does not
inspect the scaling factors (a zero factor is instead caught by the scale
routines at computation time). -/
theorem c4_validate_checks_exactly_amp_bounds (curve : StableCurve) :
    (validate curve = .ok () ↔ MIN_AMP < curve.amp ∧ curve.amp < MAX_AMP) ∧
    (¬ (MIN_AMP < curve.amp ∧ curve.amp < MAX_AMP) →
      validate curve = .error .invalidCurve) := by
  unfold validate
  by_cases h1 : MIN_AMP < curve.amp <;> by_cases h2 : curve.amp < MAX_AMP <;>
    simp [h1, h2]

/-- C4 amended witness: amp 1 is rejected with InvalidCurve, amp 100 is
accepted, regardless of the scaling factors. -/
theorem c4_validate_checks_exactly_amp_bounds_witness :
    validate { amp := 1, token_a_factor := 1, token_b_factor := 1 } =
      .error .invalidCurve ∧
    validate { amp := 100, token_a_factor := 0, token_b_factor := 0 } = .ok () :=
  ⟨(c4_validate_checks_exactly_amp_bounds
      { amp := 1, token_a_factor := 1, token_b_factor := 1 }).2 (by decide),
   (c4_validate_checks_exactly_amp_bounds
      { amp := 100, token_a_factor := 0, token_b_factor := 0 }).1.mpr (by decide)⟩

/-- C5: for the stable curve, swap_without_fees with a zero source amount
returns (0, 0) without error, for every curve parameterisation, pool state and
trade direction. -/
theorem c5_swap_zero_source_returns_zero (curve : StableCurve)
    (pool_source_amount pool_destination_amount : Nat)
    (trade_direction : TradeDirection) :
    swap_without_fees curve 0 pool_source_amount pool_destination_amount
      trade_direction =
      .ok { source_amount_swapped := 0, destination_amount_swapped := 0 } := rfl

/-- C6: the seed scenario of the spec and of run_swap_scenarios: amp 100,
both token decimals 6 (scaling factors 1 and 1), swapping 1_000_000 into the
pool (1_000_000, 1_000_000) consumes the full 1_000_000 and pays out
934_112. -/
theorem c6_swap_seed_amp_100 :
    swap_without_fees { amp := 100, token_a_factor := 1, token_b_factor := 1 }
        1000000 1000000 1000000 .AtoB =
      .ok { source_amount_swapped := 1000000,
            destination_amount_swapped := 934112 } := by decide

/-- C9: whenever the stable swap succeeds on a positive source amount, the
returned source_amount_swapped equals the full source amount: the stable curve
never returns unused input dust. -/
theorem c9_swap_consumes_full_source (curve : StableCurve)
    (source_amount pool_source_amount pool_destination_amount : Nat)
    (trade_direction : TradeDirection) (r : SwapWithoutFeesResult)
    (hs : 0 < source_amount)
    (h : swap_without_fees curve source_amount pool_source_amount
      pool_destination_amount trade_direction = .ok r) :
    r.source_amount_swapped = source_amount := by
  unfold swap_without_fees at h
  rw [if_neg (by omega)] at h
  obtain ⟨ann, _, h⟩ := resBind_ok h
  obtain ⟨triple, _, h⟩ := resBind_ok h
  obtain ⟨s1, ps1, pd1⟩ := triple
  obtain ⟨ns, _, h⟩ := resBind_ok h
  obtain ⟨d, _, h⟩ := resBind_ok h
  obtain ⟨ny, _, h⟩ := resBind_ok h
  obtain ⟨so, _, h⟩ := resBind_ok h
  obtain ⟨amt, _, h⟩ := resBind_ok h
  rw [Except.ok.injEq] at h
  rw [← h]

/-- C9 witness: the amp 75 seed swap succeeds and consumes its full source
amount of 1_000_000. -/
theorem c9_swap_consumes_full_source_witness :
    ({ source_amount_swapped := 1000000, destination_amount_swapped := 924745 } :
      SwapWithoutFeesResult).source_amount_swapped = 1000000 :=
  c9_swap_consumes_full_source
    { amp := 75, token_a_factor := 1, token_b_factor := 1 }
    1000000 1000000 1000000 .AtoB _ (by decide) (by decide)

/-- One rounded-up side of a Ceiling split never loses value for the pool:
when the floor quotient is at least one, the (guarded) rounded-up amount times
the supply covers the exact product. -/
theorem deposit_side_no_dilution {s Δ v t : Nat} (hs : 0 < s)
    (h1 : 1 ≤ Δ * v / s)
    (ht : t = if 0 < Δ * v % s ∧ 0 < Δ * v / s then Δ * v / s + 1 else Δ * v / s) :
    v * (s + Δ) ≤ (v + t) * s := by
  have hdm := Nat.div_add_mod (Δ * v) s
  have hmlt := Nat.mod_lt (Δ * v) hs
  have key : s * (Δ * v / s) + Δ * v % s ≤ t * s := by
    subst ht
    split
    · have e : (Δ * v / s + 1) * s = s * (Δ * v / s) + s := by ring
      omega
    · next hcond =>
      have e : Δ * v / s * s = s * (Δ * v / s) := by ring
      omega
  calc v * (s + Δ) = v * s + Δ * v := by ring
    _ = v * s + (s * (Δ * v / s) + Δ * v % s) := by rw [hdm]
    _ ≤ v * s + t * s := by omega
    _ = (v + t) * s := by ring

/-- C2: a Ceiling (deposit) split never dilutes the existing LP value: with a
positive pool, positive deposit and both floor shares at least one, the
amounts the splitter returns satisfy
new_reserve_i * old_supply >= old_reserve_i * new_supply on both sides. -/
theorem c2_deposit_split_never_dilutes
    (pool_tokens pool_token_supply a b ta tb : Nat)
    (_hpt : 0 < pool_tokens) (hs : 0 < pool_token_supply)
    (_ha : 0 < a) (_hb : 0 < b)
    (hfa : 1 ≤ pool_tokens * a / pool_token_supply)
    (hfb : 1 ≤ pool_tokens * b / pool_token_supply)
    (h : pool_tokens_to_trading_tokens pool_tokens pool_token_supply a b
      .Ceiling = .ok { token_a_amount := ta, token_b_amount := tb }) :
    a * (pool_token_supply + pool_tokens) ≤ (a + ta) * pool_token_supply ∧
    b * (pool_token_supply + pool_tokens) ≤ (b + tb) * pool_token_supply := by
  unfold pool_tokens_to_trading_tokens at h
  obtain ⟨na, hna, h⟩ := resBind_ok h
  obtain ⟨ta0, hta0, h⟩ := resBind_ok h
  obtain ⟨nb, hnb, h⟩ := resBind_ok h
  obtain ⟨tb0, htb0, h⟩ := resBind_ok h
  obtain ⟨hna, -⟩ := tryMul_ok hna
  obtain ⟨hta0, -⟩ := tryDiv_ok hta0
  obtain ⟨hnb, -⟩ := tryMul_ok hnb
  obtain ⟨htb0, -⟩ := tryDiv_ok htb0
  subst hna hnb hta0 htb0
  rw [Except.ok.injEq, TradingTokenResult.mk.injEq] at h
  obtain ⟨hta, htb⟩ := h
  constructor
  · exact deposit_side_no_dilution hs hfa hta.symm
  · exact deposit_side_no_dilution hs hfb htb.symm

/-- C2 witness: the deposit seed of the spec: 5 pool tokens into supply 10
over reserves (2, 49) yields (1, 25) and neither side is diluted. -/
theorem c2_deposit_split_never_dilutes_witness :
    2 * (10 + 5) ≤ (2 + 1) * 10 ∧ 49 * (10 + 5) ≤ (49 + 25) * 10 :=
  c2_deposit_split_never_dilutes 5 10 2 49 1 25 (by decide) (by decide)
    (by decide) (by decide) (by decide) (by decide) (by decide)

/-- C10: the withdraw-all-token-types handler caps each released amount at the
corresponding vault balance, so a successful withdrawal never attempts to
transfer more of either token than the pool vault holds. -/
theorem c10_withdraw_amounts_capped_by_vaults (w : WithdrawAllInputs)
    (r : WithdrawAllOutcome) (h : withdraw_all_token_types w = .ok r) :
    r.token_a_amount ≤ w.token_a_vault_amount ∧
    r.token_b_amount ≤ w.token_b_vault_amount := by
  unfold withdraw_all_token_types at h
  obtain ⟨fee, -, h⟩ := resBind_ok h
  obtain ⟨pta, -, h⟩ := resBind_ok h
  obtain ⟨res, -, h⟩ := resBind_ok h
  obtain ⟨ta, -, h⟩ := resBind_ok h
  dsimp only [] at h
  split at h
  · exact absurd h (by simp)
  split at h
  · exact absurd h (by simp)
  obtain ⟨tb, -, h⟩ := resBind_ok h
  split at h
  · exact absurd h (by simp)
  split at h
  · exact absurd h (by simp)
  obtain ⟨fee64, -, h⟩ := resBind_ok h
  obtain ⟨pta64, -, h⟩ := resBind_ok h
  rw [Except.ok.injEq] at h
  rw [← h]
  exact ⟨Nat.min_le_left _ _, Nat.min_le_left _ _⟩

/-- C10 witness: withdrawing 1 of 100 pool tokens from vaults (999, 100) with
no withdraw fee releases (9, 1), and both amounts are within the vault
balances. -/
theorem c10_withdraw_amounts_capped_by_vaults_witness :
    ({ pool_token_amount := 1, token_a_amount := 9, token_b_amount := 1,
        fee := 0 } : WithdrawAllOutcome).token_a_amount ≤ 999 ∧
    ({ pool_token_amount := 1, token_a_amount := 9, token_b_amount := 1,
        fee := 0 } : WithdrawAllOutcome).token_b_amount ≤ 100 :=
  c10_withdraw_amounts_capped_by_vaults
    { pool_token_amount := 1, minimum_token_a_amount := 0,
      minimum_token_b_amount := 0, pool_token_supply := 100,
      token_a_vault_amount := 999, token_b_vault_amount := 100,
      fees := { owner_trade_fee_numerator := 0, owner_trade_fee_denominator := 1,
                host_fee_numerator := 0, host_fee_denominator := 1,
                owner_withdraw_fee_numerator := 0,
                owner_withdraw_fee_denominator := 1 } }
    _ (by decide)

/-! Arithmetic facts about ceiling division, feeding the transfer-fee
claims. -/

theorem ceilDiv_le_iff {a b k : Nat} (hb : 0 < b) :
    ceilDiv a b ≤ k ↔ a ≤ b * k := by
  unfold ceilDiv
  rw [Nat.div_le_iff_le_mul_add_pred hb]
  omega

theorem lt_ceilDiv_iff {a b k : Nat} (hb : 0 < b) :
    k < ceilDiv a b ↔ b * k < a := by
  have h := ceilDiv_le_iff (a := a) (b := b) (k := k) hb
  omega

theorem le_mul_ceilDiv (a : Nat) {b : Nat} (hb : 0 < b) :
    a ≤ b * ceilDiv a b :=
  (ceilDiv_le_iff hb).mp le_rfl

theorem ceilDiv_mono {b : Nat} (hb : 0 < b) {x y : Nat} (h : x ≤ y) :
    ceilDiv x b ≤ ceilDiv y b := by
  rw [ceilDiv_le_iff hb]
  exact le_trans h (le_mul_ceilDiv y hb)

theorem ceilDiv_add_le {b x y : Nat} (hb : 0 < b) :
    ceilDiv (x + y) b ≤ ceilDiv x b + ceilDiv y b := by
  rw [ceilDiv_le_iff hb, Nat.mul_add]
  exact Nat.add_le_add (le_mul_ceilDiv x hb) (le_mul_ceilDiv y hb)

theorem ceilDiv_superadd {b x y : Nat} (hb : 0 < b) :
    ceilDiv x b + ceilDiv y b ≤ ceilDiv (x + y) b + 1 := by
  rcases Nat.eq_zero_or_pos (ceilDiv x b) with h0 | hx
  · have := ceilDiv_mono hb (Nat.le_add_left y x)
    omega
  rcases Nat.eq_zero_or_pos (ceilDiv y b) with h0 | hy
  · have := ceilDiv_mono hb (Nat.le_add_right x y)
    omega
  have hxlt : b * (ceilDiv x b - 1) < x := (lt_ceilDiv_iff hb).mp (by omega)
  have hylt : b * (ceilDiv y b - 1) < y := (lt_ceilDiv_iff hb).mp (by omega)
  have hk : b * (ceilDiv x b + ceilDiv y b - 2) < x + y := by
    have hsum : b * (ceilDiv x b + ceilDiv y b - 2) =
        b * (ceilDiv x b - 1) + b * (ceilDiv y b - 1) := by
      rw [← Nat.mul_add]
      congr 1
      omega
    omega
  have := (lt_ceilDiv_iff hb).mpr hk
  omega

theorem ceilDiv_mul_self (x : Nat) {b : Nat} (hb : 0 < b) :
    ceilDiv (x * b) b = x := by
  rcases Nat.eq_zero_or_pos x with rfl | hx
  · show (0 * b + b - 1) / b = 0
    rw [Nat.zero_mul, Nat.zero_add]
    exact Nat.div_eq_of_lt (by omega)
  · have h1 : ceilDiv (x * b) b ≤ x := (ceilDiv_le_iff hb).mpr (by rw [Nat.mul_comm])
    have h2 : x - 1 < ceilDiv (x * b) b := by
      rw [lt_ceilDiv_iff hb]
      have hpos : 0 < x * b := Nat.mul_pos hx hb
      have he : b * (x - 1) = b * x - b := by
        cases x with
        | zero => omega
        | succ n => rw [Nat.succ_sub_one, Nat.mul_succ]; omega
      rw [he, Nat.mul_comm b x]
      omega
    omega

theorem okOr_ok {α : Type} {e : SwapErr} {o : Option α} {v : α}
    (h : okOr e o = .ok v) : o = some v := by
  cases o with
  | none => exact absurd h (by simp [okOr])
  | some w =>
    have : w = v := by simpa [okOr] using h
    rw [this]

theorem calculate_epoch_fee_eq (tf : TransferFee) (amount : Nat) :
    calculate_epoch_fee tf amount = some (feeOf tf amount) := by
  unfold calculate_epoch_fee feeOf
  split
  · next h =>
    rcases h with h | h <;> simp [h, ceilDiv, ONE_IN_BASIS_POINTS]
  · rfl

theorem mul_sub_one_eq (n m : Nat) : n * (m - 1) = n * m - n := by
  cases m with
  | zero => simp
  | succ k =>
    rw [Nat.succ_sub_one, Nat.mul_succ]
    omega

/-- Core bound for the transfer-fee round trip: subtracting the fee of an
amount and then adding the inverse fee of the remainder recovers at most the
fee (so the round trip never exceeds the original), and recovers at least
fee - 1 when the fee rate is at most fifty percent. -/
theorem inverse_of_fee_bounds (tf : TransferFee) (a ψ : Nat)
    (hφa : feeOf tf a ≤ a)
    (hψ : calculate_inverse_epoch_fee tf (a - feeOf tf a) = some ψ) :
    ψ ≤ feeOf tf a ∧
    (tf.transfer_fee_basis_points ≤ 5000 → feeOf tf a ≤ ψ + 1) := by
  have hB : (0 : Nat) < 10000 := by omega
  have hfeeOf : ∀ x : Nat, feeOf tf x =
      min (ceilDiv (x * tf.transfer_fee_basis_points) 10000) tf.maximum_fee :=
    fun _ => rfl
  unfold calculate_inverse_epoch_fee at hψ
  obtain ⟨pre, hpre, hfee⟩ := Option.bind_eq_some.mp hψ
  rw [calculate_epoch_fee_eq, Option.some_inj] at hfee
  subst hfee
  unfold calculate_pre_fee_amount at hpre
  simp only [ONE_IN_BASIS_POINTS] at hpre
  split at hpre
  · -- the basis points are zero: both fees are zero
    next hf0 =>
    rw [Option.some_inj] at hpre
    subst hpre
    have hz : ∀ x : Nat, feeOf tf x = 0 := by
      intro x
      rw [hfeeOf, hf0]
      norm_num [ceilDiv]
    simp [hz]
  split at hpre
  · -- the post-fee amount is zero: the inverse fee is zero and the forward
    -- fee is at most one when the rate is at most fifty percent
    next hf0 hpost0 =>
    rw [Option.some_inj] at hpre
    subst hpre
    have hψ0 : feeOf tf 0 = 0 := by
      rw [hfeeOf]
      norm_num [ceilDiv]
    rw [hψ0]
    refine ⟨Nat.zero_le _, ?_⟩
    intro hf5
    have hple : feeOf tf a ≤ ceilDiv (a * tf.transfer_fee_basis_points) 10000 := by
      rw [hfeeOf]
      exact Nat.min_le_left _ _
    rcases Nat.lt_or_ge a 2 with ha2 | ha2
    · have hsmall : ceilDiv (a * tf.transfer_fee_basis_points) 10000 ≤ 1 := by
        rw [ceilDiv_le_iff hB]
        have h1 : a * tf.transfer_fee_basis_points ≤
            1 * tf.transfer_fee_basis_points :=
          Nat.mul_le_mul_right _ (by omega)
        have h2 : 1 * tf.transfer_fee_basis_points ≤ 1 * 5000 :=
          Nat.mul_le_mul_left _ hf5
        omega
      omega
    · exfalso
      have hlt : 10000 * (a - 1) < a * tf.transfer_fee_basis_points := by
        rw [← lt_ceilDiv_iff hB]
        omega
      have hle : a * tf.transfer_fee_basis_points ≤ a * 5000 :=
        Nat.mul_le_mul_left _ hf5
      omega
  split at hpre
  · -- one hundred percent fee: the fee and the inverse fee are both the cap
    next hf0 hpost0 hf10000 =>
    split at hpre
    · rw [Option.some_inj] at hpre
      subst hpre
      have hφeq : feeOf tf a = min a tf.maximum_fee := by
        rw [hfeeOf, hf10000, ceilDiv_mul_self a hB]
      rcases le_or_lt a tf.maximum_fee with hM | hM
      · exact absurd (by rw [hφeq, Nat.min_eq_left hM]; omega) hpost0
      · have hφM : feeOf tf a = tf.maximum_fee := by
          rw [hφeq, Nat.min_eq_right (le_of_lt hM)]
        have hψeq : feeOf tf (tf.maximum_fee + (a - feeOf tf a)) =
            tf.maximum_fee := by
          rw [hfeeOf, hf10000, ceilDiv_mul_self _ hB,
            Nat.min_eq_right (by omega)]
        rw [hψeq, hφM]
        exact ⟨le_rfl, fun hf5 => by omega⟩
    · exact absurd hpre (by simp)
  split at hpre
  · -- more than one hundred percent: no inverse exists, contradiction
    exact absurd hpre (by simp)
  -- main case: 0 < bps < 10000
  next hf0 hpost0 hfB hflt =>
  set f := tf.transfer_fee_basis_points with hfdef
  set M := tf.maximum_fee with hMdef
  set φ := feeOf tf a with hφdef
  set post := a - φ with hpostdef
  set c := ceilDiv (a * f) 10000 with hcdef
  set den := 10000 - f with hdendef
  set raw := ceilDiv (post * 10000) den with hrawdef
  have hf1 : 1 ≤ f := by omega
  have hf9999 : f ≤ 9999 := by omega
  have hden0 : 0 < den := by omega
  have hpost1 : 1 ≤ post := by omega
  have hφmin : φ = min c M := by
    rw [hφdef, hfeeOf, ← hcdef]
  have hφc_le : φ ≤ c := by rw [hφmin]; exact Nat.min_le_left _ _
  have hφM_le : φ ≤ M := by rw [hφmin]; exact Nat.min_le_right _ _
  have hac : a * f ≤ 10000 * c := by rw [hcdef]; exact le_mul_ceilDiv _ hB
  have hbpost : post * 10000 ≤ den * raw := by
    rw [hrawdef]; exact le_mul_ceilDiv _ hden0
  have hrawpost : post ≤ raw := by
    have h1 : den * (post - 1) ≤ 10000 * (post - 1) :=
      Nat.mul_le_mul_right _ (by omega)
    have h2 : (10000 : Nat) * (post - 1) < post * 10000 := by omega
    have h3 : post - 1 < raw := by
      rw [hrawdef]; exact (lt_ceilDiv_iff hden0).mpr (lt_of_le_of_lt h1 h2)
    omega
  have hrawa : c ≤ M → raw ≤ a := by
    intro hcM
    have hφc : φ = c := by rw [hφmin, Nat.min_eq_left hcM]
    rw [hrawdef, ceilDiv_le_iff hden0]
    have hda : den * a = 10000 * a - f * a := by
      rw [hdendef]; exact Nat.sub_mul _ _ _
    have hcomm : f * a = a * f := Nat.mul_comm _ _
    omega
  split at hpre
  · -- the cap binds on the inverse: the pre-fee amount is post + maximum_fee,
    -- which always equals the original amount
    next hcap =>
    split at hpre
    · rw [Option.some_inj] at hpre
      subst hpre
      have hφM : φ = M := by
        rcases le_or_lt c M with hcM | hMc
        · have hra := hrawa hcM
          have hφc : φ = c := by rw [hφmin, Nat.min_eq_left hcM]
          omega
        · rw [hφmin, Nat.min_eq_right (le_of_lt hMc)]
      have hprea : post + M = a := by omega
      rw [hprea, ← hφdef]
      exact ⟨le_rfl, fun _ => by omega⟩
    · exact absurd hpre (by simp)
  · -- the cap does not bind on the inverse: the pre-fee amount is the raw
    -- ceiling inverse
    next hncap =>
    split at hpre
    · rw [Option.some_inj] at hpre
      subst hpre
      have hψval : feeOf tf raw = min (ceilDiv (raw * f) 10000) M := hfeeOf raw
      rcases le_or_lt c M with hcM | hMc
      · -- forward fee uncapped
        have hφc : φ = c := by rw [hφmin, Nat.min_eq_left hcM]
        have hra := hrawa hcM
        constructor
        · rw [hψval, hφmin]
          refine min_le_min ?_ le_rfl
          rw [hcdef]
          exact ceilDiv_mono hB (Nat.mul_le_mul_right _ hra)
        · intro hf5
          rcases Nat.lt_or_ge c 2 with hc2 | hc2
          · have h0 := Nat.zero_le (feeOf tf raw)
            omega
          · have hstep1 : 10000 * (c - 1) < a * f := by
              have h' : c - 1 < ceilDiv (a * f) 10000 := by rw [← hcdef]; omega
              exact (lt_ceilDiv_iff hB).mp h'
            have h1 : den * (c - 2) < post * f := by
              zify [hc2]
              have e1 : (den : Int) = 10000 - (f : Int) := by omega
              have e2 : (post : Int) = (a : Int) - (c : Int) := by omega
              rw [e1, e2]
              zify [show 1 ≤ c by omega] at hstep1
              have hf5z : (f : Int) ≤ 5000 := by exact_mod_cast hf5
              nlinarith [hstep1, hf5z]
            have hm : den * (10000 * (c - 2)) < den * (raw * f) := by
              calc den * (10000 * (c - 2)) = 10000 * (den * (c - 2)) := by ring
                _ < 10000 * (post * f) := mul_lt_mul_of_pos_left h1 hB
                _ = f * (post * 10000) := by ring
                _ ≤ f * (den * raw) := Nat.mul_le_mul_left _ hbpost
                _ = den * (raw * f) := by ring
            have hkey := Nat.lt_of_mul_lt_mul_left hm
            have hcr : c - 2 < ceilDiv (raw * f) 10000 :=
              (lt_ceilDiv_iff hB).mpr hkey
            rw [hψval]
            rcases le_total (ceilDiv (raw * f) 10000) M with hle | hle
            · rw [Nat.min_eq_left hle]
              omega
            · rw [Nat.min_eq_right hle]
              omega
      · -- forward fee capped: the cap must then bind on the inverse as well,
        -- contradicting this branch
        exfalso
        have hφM : φ = M := by rw [hφmin, Nat.min_eq_right (le_of_lt hMc)]
        have hM1 : 1 ≤ M := by omega
        have haf : 10000 * M < a * f := by
          have h' : M < ceilDiv (a * f) 10000 := by rw [← hcdef]; exact hMc
          exact (lt_ceilDiv_iff hB).mp h'
        have h3 : den * M < post * f := by
          zify
          have e1 : (den : Int) = 10000 - (f : Int) := by omega
          have e2 : (post : Int) = (a : Int) - (M : Int) := by omega
          rw [e1, e2]
          have hafz : (10000 : Int) * M < (a : Int) * f := by exact_mod_cast haf
          nlinarith [hafz]
        have hstep : den * (post + M - 1) < post * 10000 := by
          have he : post + M - 1 = post + (M - 1) := by omega
          rw [he, Nat.mul_add, mul_sub_one_eq]
          have hpden : den * post = 10000 * post - f * post := by
            rw [hdendef]; exact Nat.sub_mul _ _ _
          have hc1 : f * post = post * f := Nat.mul_comm _ _
          have hpf : post * f ≤ 10000 * post := by
            have := Nat.mul_le_mul_left post hf9999
            have hcm : post * 9999 ≤ 9999 * post := by omega
            omega
          omega
        have hge : post + M - 1 < raw := by
          rw [hrawdef]; exact (lt_ceilDiv_iff hden0).mpr hstep
        omega
    · exact absurd hpre (by simp)

/-- C7: the claim states that for every amount and every transfer-fee
configuration, sub_transfer_fee followed by add_inverse_transfer_fee returns
the original amount or the original minus one.  It fails at a one hundred
percent fee: with 10000 basis points, subtracting the fee of 2 gives 0 and
the inverse of 0 is 0, which is neither 2 nor 1. -/
theorem c7_roundtrip_counterexample :
    sub_transfer_fee
        (some { transfer_fee_basis_points := 10000, maximum_fee := 1000000 })
        2 = .ok 0 ∧
    add_inverse_transfer_fee
        (some { transfer_fee_basis_points := 10000, maximum_fee := 1000000 })
        0 = .ok 0 ∧
    ¬ ((0 : Nat) = 2 ∨ (0 : Nat) = 2 - 1) := by
  refine ⟨by decide, by decide, by decide⟩

/-- C7 amended: whenever sub_transfer_fee followed by add_inverse_transfer_fee
succeeds, the result never exceeds the original amount; and when the
configured fee is at most 5000 basis points (fifty percent) the result is the
original amount or the original minus one. -/
theorem c7_roundtrip_never_gains_and_tight_up_to_half
    (cfg : Option TransferFee) (a post r : Nat)
    (h1 : sub_transfer_fee cfg a = .ok post)
    (h2 : add_inverse_transfer_fee cfg post = .ok r) :
    r ≤ a ∧ (configBasisPoints cfg ≤ 5000 → a - 1 ≤ r) := by
  cases cfg with
  | none =>
    have ha : a = post := by simpa [sub_transfer_fee] using h1
    have hr : post = r := by simpa [add_inverse_transfer_fee] using h2
    subst ha hr
    exact ⟨le_rfl, fun _ => by omega⟩
  | some tf =>
    unfold sub_transfer_fee at h1
    obtain ⟨a64, ha64, h1⟩ := resBind_ok h1
    obtain ⟨ha64e, ha64lt⟩ := tryCast_ok ha64
    subst a64
    obtain ⟨fee, hfee, h1⟩ := resBind_ok h1
    have hfeev := okOr_ok hfee
    rw [calculate_epoch_fee_eq, Option.some_inj] at hfeev
    obtain ⟨hposteq, hfeele⟩ := trySub_ok h1
    subst fee
    subst post
    unfold add_inverse_transfer_fee at h2
    obtain ⟨p64, hp64, h2⟩ := resBind_ok h2
    obtain ⟨hp64e, hp64lt⟩ := tryCast_ok hp64
    subst p64
    obtain ⟨ψ, hψ, h2⟩ := resBind_ok h2
    have hψv := okOr_ok hψ
    obtain ⟨hr, hrlt⟩ := tryAdd_ok h2
    have hcore := inverse_of_fee_bounds tf a ψ hfeele hψv
    refine ⟨by omega, fun hb => ?_⟩
    have h5 : tf.transfer_fee_basis_points ≤ 5000 := hb
    have := hcore.2 h5
    omega

/-- C7 amended witness: at 10 basis points with a large cap, 10_000 loses 10
to the fee and the inverse recovers exactly 10_000. -/
theorem c7_roundtrip_never_gains_and_tight_up_to_half_witness :
    (10000 : Nat) ≤ 10000 ∧ (10000 : Nat) - 1 ≤ 10000 := by
  have h := c7_roundtrip_never_gains_and_tight_up_to_half
    (some { transfer_fee_basis_points := 10, maximum_fee := 1000000000000 })
    10000 9990 10000 (by decide) (by decide)
  exact ⟨h.1, h.2 (by decide)⟩

/-- The capped rounded-up fee is subadditive over a split of the amount. -/
theorem feeOf_subadd (tf : TransferFee) (u v : Nat) :
    feeOf tf (u + v) ≤ feeOf tf u + feeOf tf v := by
  have hB : (0 : Nat) < 10000 := by omega
  unfold feeOf
  simp only [ONE_IN_BASIS_POINTS]
  have hadd : ceilDiv ((u + v) * tf.transfer_fee_basis_points) 10000 ≤
      ceilDiv (u * tf.transfer_fee_basis_points) 10000 +
      ceilDiv (v * tf.transfer_fee_basis_points) 10000 := by
    rw [Nat.add_mul]
    exact ceilDiv_add_le hB
  have l1 : min (ceilDiv ((u + v) * tf.transfer_fee_basis_points) 10000)
      tf.maximum_fee ≤ ceilDiv ((u + v) * tf.transfer_fee_basis_points) 10000 :=
    Nat.min_le_left _ _
  have l2 : min (ceilDiv ((u + v) * tf.transfer_fee_basis_points) 10000)
      tf.maximum_fee ≤ tf.maximum_fee := Nat.min_le_right _ _
  rcases le_total (ceilDiv (u * tf.transfer_fee_basis_points) 10000)
      tf.maximum_fee with h | h <;>
    rcases le_total (ceilDiv (v * tf.transfer_fee_basis_points) 10000)
      tf.maximum_fee with h' | h'
  · rw [Nat.min_eq_left h, Nat.min_eq_left h']
    omega
  · rw [Nat.min_eq_left h, Nat.min_eq_right h']
    omega
  · rw [Nat.min_eq_right h, Nat.min_eq_left h']
    omega
  · rw [Nat.min_eq_right h, Nat.min_eq_right h']
    omega

theorem resPure_ok {α : Type} {x y : α} (h : (pure x : Res α) = .ok y) :
    x = y := by
  simpa [pure, Except.pure] using h

theorem feeOf_zero (tf : TransferFee) : feeOf tf 0 = 0 := by
  unfold feeOf
  simp [ceilDiv, ONE_IN_BASIS_POINTS]

/-- C8: the claim states that for every fee parameters and transfer-fee
configuration the leg-by-leg sub_input_transfer_fees is at most 2 units (no
host) below the one-shot sub_transfer_fee.  It fails when the maximum-fee cap
binds: at 100 basis points capped at 10, with a fifty percent owner fee on an
input of 100_000, the one-shot fee is capped at 10 while the two legs pay 10
each, leaving a gap of 20 units. -/
theorem c8_input_fee_gap_counterexample :
    sub_input_transfer_fees
        (some { transfer_fee_basis_points := 100, maximum_fee := 10 })
        { owner_trade_fee_numerator := 5000, owner_trade_fee_denominator := 10000,
          host_fee_numerator := 0, host_fee_denominator := 1,
          owner_withdraw_fee_numerator := 0, owner_withdraw_fee_denominator := 1 }
        100000 false = .ok 99980 ∧
    sub_transfer_fee2
        (some { transfer_fee_basis_points := 100, maximum_fee := 10 })
        100000 = .ok 99990 ∧
    2 < 99990 - 99980 := by
  refine ⟨by decide, by decide, by decide⟩

/-- C8 amended: whenever both computations succeed, sub_input_transfer_fees is
never above the one-shot sub_transfer_fee2; and when the one-shot fee does not
hit the maximum-fee cap, the gap is at most 3 units with the host leg and at
most 2 units without it. -/
theorem c8_input_fees_close_to_one_shot
    (cfg : Option TransferFee) (fees : Fees) (amount : Nat) (host_fee_on : Bool)
    (r1 r2 : Nat)
    (h1 : sub_input_transfer_fees cfg fees amount host_fee_on = .ok r1)
    (h2 : sub_transfer_fee2 cfg amount = .ok r2) :
    r1 ≤ r2 ∧
    (feeUncapped cfg amount → r2 - r1 ≤ if host_fee_on then 3 else 2) := by
  have hB : (0 : Nat) < 10000 := by omega
  cases cfg with
  | none =>
    have ha : amount = r1 := by simpa [sub_input_transfer_fees] using h1
    have hb : amount = r2 := by simpa [sub_transfer_fee2] using h2
    subst ha
    refine ⟨by omega, fun _ => by split <;> omega⟩
  | some tf =>
    unfold sub_transfer_fee2 at h2
    obtain ⟨F, hF, h2⟩ := resBind_ok h2
    have hFv := okOr_ok hF
    rw [calculate_epoch_fee_eq, Option.some_inj] at hFv
    subst F
    obtain ⟨hr2, hFle⟩ := trySub_ok h2
    unfold sub_input_transfer_fees at h1
    obtain ⟨ohf, hohf, h1⟩ := resBind_ok h1
    obtain ⟨hp, hhp, h1⟩ := resBind_ok h1
    have hhpfacts : hp.2 = feeOf tf hp.1 := by
      unfold input_host_fees at hhp
      cases host_fee_on with
      | false =>
        rw [if_neg (by simp)] at hhp
        have := resPure_ok hhp
        rw [← this, feeOf_zero]
      | true =>
        rw [if_pos rfl] at hhp
        obtain ⟨hf, hhf, hhp⟩ := resBind_ok hhp
        obtain ⟨hf64, hhf64, hhp⟩ := resBind_ok hhp
        obtain ⟨htf, hhtf, hhp⟩ := resBind_ok hhp
        have hpe := resPure_ok hhp
        obtain ⟨he64, -⟩ := tryCast_ok hhf64
        subst hf64
        have hv := okOr_ok hhtf
        rw [calculate_epoch_fee_eq, Option.some_inj] at hv
        rw [← hpe, ← hv]
    obtain ⟨ofee, hofee, h1⟩ := resBind_ok h1
    obtain ⟨hofeee, hhple⟩ := trySub_ok hofee
    obtain ⟨of64, hof64, h1⟩ := resBind_ok h1
    obtain ⟨hof64e, -⟩ := tryCast_ok hof64
    subst of64
    obtain ⟨otf, hotf, h1⟩ := resBind_ok h1
    have hotfv := okOr_ok hotf
    rw [calculate_epoch_fee_eq, Option.some_inj] at hotfv
    subst otf
    obtain ⟨oh64, hoh64, h1⟩ := resBind_ok h1
    obtain ⟨hoh64e, -⟩ := tryCast_ok hoh64
    subst oh64
    obtain ⟨vault, hvault, h1⟩ := resBind_ok h1
    obtain ⟨hvaulte, hohfle⟩ := trySub_ok hvault
    obtain ⟨vtf, hvtf, h1⟩ := resBind_ok h1
    have hvtfv := okOr_ok hvtf
    rw [calculate_epoch_fee_eq, Option.some_inj] at hvtfv
    subst vtf
    obtain ⟨s1, hs1, h1⟩ := resBind_ok h1
    obtain ⟨hs1e, hvtfle⟩ := trySub_ok hs1
    obtain ⟨s2, hs2, h1⟩ := resBind_ok h1
    obtain ⟨hs2e, hotfle⟩ := trySub_ok hs2
    obtain ⟨hr1, hhp2le⟩ := trySub_ok h1
    -- the three legs split the amount exactly
    have hsum : vault + ofee + hp.1 = amount := by omega
    -- never above: the one-shot fee is subadditive over the split
    have hkey1 : feeOf tf amount ≤
        feeOf tf vault + feeOf tf ofee + feeOf tf hp.1 := by
      rw [← hsum]
      exact le_trans (feeOf_subadd tf (vault + ofee) hp.1)
        (Nat.add_le_add_right (feeOf_subadd tf vault ofee) _)
    refine ⟨by omega, fun huncap => ?_⟩
    -- the uncapped gap over three rounded-up legs is at most two
    have huncapc : ceilDiv (amount * tf.transfer_fee_basis_points) 10000 ≤
        tf.maximum_fee := huncap
    have hleg : ∀ x, x ≤ amount →
        feeOf tf x = ceilDiv (x * tf.transfer_fee_basis_points) 10000 := by
      intro x hx
      unfold feeOf
      simp only [ONE_IN_BASIS_POINTS]
      exact Nat.min_eq_left
        (le_trans (ceilDiv_mono hB (Nat.mul_le_mul_right _ hx)) huncapc)
    have g1 : ceilDiv (vault * tf.transfer_fee_basis_points) 10000 +
        ceilDiv (ofee * tf.transfer_fee_basis_points) 10000 ≤
        ceilDiv ((vault + ofee) * tf.transfer_fee_basis_points) 10000 + 1 := by
      rw [Nat.add_mul]
      exact ceilDiv_superadd hB
    have g2 : ceilDiv ((vault + ofee) * tf.transfer_fee_basis_points) 10000 +
        ceilDiv (hp.1 * tf.transfer_fee_basis_points) 10000 ≤
        ceilDiv ((vault + ofee + hp.1) * tf.transfer_fee_basis_points) 10000 +
          1 := by
      rw [Nat.add_mul (vault + ofee) hp.1]
      exact ceilDiv_superadd hB
    have hva : vault ≤ amount := by omega
    have hoa : ofee ≤ amount := by omega
    have hha : hp.1 ≤ amount := by omega
    have e1 := hleg vault hva
    have e2 := hleg ofee hoa
    have e3 := hleg hp.1 hha
    have e4 := hleg amount le_rfl
    rw [hsum] at g2
    have hgap : feeOf tf vault + feeOf tf ofee + feeOf tf hp.1 ≤
        feeOf tf amount + 2 := by
      rw [e1, e2, e3, e4]
      omega
    split <;> omega

/-- C8 amended witness: the repository's own seed: 10 bps transfer fee with a
huge cap, owner fee 10 bps with a 10 bps host share, input 10_000_000 and the
host leg on: the leg-by-leg result 9_989_999 is one unit below the one-shot
9_990_000, within the bound of three. -/
theorem c8_input_fees_close_to_one_shot_witness :
    (9989999 : Nat) ≤ 9990000 ∧
    (9990000 : Nat) - 9989999 ≤ if true then 3 else 2 := by
  have h := c8_input_fees_close_to_one_shot
    (some { transfer_fee_basis_points := 10, maximum_fee := 1000000000000 })
    { owner_trade_fee_numerator := 10, owner_trade_fee_denominator := 10000,
      host_fee_numerator := 10, host_fee_denominator := 10000,
      owner_withdraw_fee_numerator := 0, owner_withdraw_fee_denominator := 1 }
    10000000 true 9989999 9990000 (by decide) (by decide)
  exact ⟨h.1, h.2 (by decide)⟩

end Hyperplane
